import Mathlib

/-!
Shallow embedding of `src/gravity_sand.ino` (Digital Sand Hourglass).

The sand engine's state consists of the globals that `stepAnimation`,
`startNewCycle` and `checkFlip` read and write.  `maskY` is not part of the
state: `buildMaskY` recomputes it from scratch from `yStatic` and the active
grain on every render, so it is modelled as the derived function `buildMaskY`.
C `int` variables become `Int`, `uint8_t` bit masks become `Nat` kept below
256 by construction, `bool` stays `Bool`.

`stepAnimation` is deterministic, and `startNewCycle` always resets the
engine to the same state (up to the four dormant coordinates `grRow`,
`grCol`, `holeRow`, `holeCol`, which the very first step overwrites), so
every run's engine trajectory is the one computed by `runSteps` below.
-/

/-- The mutable globals of the sketch that the sand engine touches
(`finished`, `maskX`, `yStatic`, the active grain, `sideToggle`,
`grainIndex`, and the top hole marker). -/
structure SimState where
  finished : Bool
  maskX : List Nat
  yStatic : List (List Bool)
  grainActive : Bool
  grRow : Int
  grCol : Int
  sideToggle : Bool
  grainIndex : Nat
  topHoleActive : Bool
  holeRow : Int
  holeCol : Int
deriving DecidableEq, Repr

/-- Read `yStatic[r][c]`.  Every access in the sketch is guarded so that the
indices are in `[0,7]`; out-of-range reads (undefined behaviour in C) are
mapped to `false`. -/
def yGet (y : List (List Bool)) (r c : Int) : Bool :=
  (y.getD r.toNat []).getD c.toNat false

/-- Write `yStatic[r][c] = true`. -/
def ySet (y : List (List Bool)) (r c : Int) : List (List Bool) :=
  y.set r.toNat ((y.getD r.toNat []).set c.toNat true)

/-- The defensive guard `r >= 0 && r < 8 && c >= 0 && c < 8` used before
writing the grain into `maskY` (buildMaskY) and before settling it into
`yStatic` (stepAnimation). -/
def boundsCheck (r c : Int) : Bool :=
  decide (0 ≤ r) && decide (r < 8) && decide (0 ≤ c) && decide (c < 8)

/-! ## Drain order (`buildOrderDiagonal`) -/

/-- The local `struct Node { uint8_t r; uint8_t c; uint8_t d; }`. -/
structure Node where
  r : Nat
  c : Nat
  d : Nat
deriving DecidableEq, Repr

/-- The collection loop of `buildOrderDiagonal`: all cells of the
anti-diagonal `row + col = s`, for `r = 0..7`, with `d = |r - c|`. -/
def collectDiag (s : Int) : List Node :=
  (List.range 8).foldl
    (fun acc r =>
      let c : Int := s - Int.ofNat r
      if 0 ≤ c ∧ c < 8 then acc ++ [⟨r, c.toNat, ((Int.ofNat r - c).natAbs)⟩]
      else acc) []

/-- Inner loop of the exchange sort in `buildOrderDiagonal`:
`for (j = i+1; j < n; j++) if (nodes[j].d < nodes[i].d) swap(nodes[i], nodes[j])`.
The list has at most 8 entries, so fuel 8 runs the loop to completion. -/
def innerSwap : Nat → List Node → Nat → Nat → List Node
  | 0, a, _, _ => a
  | fuel + 1, a, i, j =>
    if j < a.length then
      let ai := a.getD i ⟨0, 0, 0⟩
      let aj := a.getD j ⟨0, 0, 0⟩
      let a2 := if aj.d < ai.d then (a.set i aj).set j ai else a
      innerSwap fuel a2 i (j + 1)
    else a

/-- The full exchange sort by ascending `d` (outer loop `i = 0..n-2`). -/
def exchangeSort (a : List Node) : List Node :=
  (List.range (a.length - 1)).foldl (fun a2 i => innerSwap 8 a2 i (i + 1)) a

/-- `buildOrderDiagonal`: for each `s = 0..14` collect the anti-diagonal,
sort it by ascending `d`, and append; at most 64 entries are kept
(the `idx < 64` guard). Produced once at boot; `orderRow`/`orderCol`
are the two projections of this list. -/
def buildOrderDiagonal : List (Nat × Nat) :=
  ((List.range 15).foldl
    (fun acc s => acc ++ (exchangeSort (collectDiag (s : Int))).map fun nd => (nd.r, nd.c))
    []).take 64

/-! ## One animation step (`stepAnimation`) -/

/-- The spawn branch of `stepAnimation` (lines 313–327): clear the next
drain-order cell of `maskX` (`maskX[r] &= ~(1 << c)`, with the `~` truncated
to 8 bits as the `uint8_t` store does), put the grain at the neck (7,7) and
restart the top hole there. -/
def spawnStep (s : SimState) : SimState :=
  let rc := buildOrderDiagonal.getD s.grainIndex (0, 0)
  { s with
    maskX := s.maskX.set rc.1 (s.maskX.getD rc.1 0 &&& (255 ^^^ (1 <<< rc.2)))
    grRow := 7, grCol := 7, grainActive := true
    topHoleActive := true, holeRow := 7, holeCol := 7 }

/-- `canLeft = (grCol > 0 && !yStatic[grRow][grCol - 1])` (line 340). -/
def canLeftB (s : SimState) : Bool :=
  decide (0 < s.grCol) && !yGet s.yStatic s.grRow (s.grCol - 1)

/-- `canRight = (grRow > 0 && !yStatic[grRow - 1][grCol])` (line 341). -/
def canRightB (s : SimState) : Bool :=
  decide (0 < s.grRow) && !yGet s.yStatic (s.grRow - 1) s.grCol

/-- The movement part of the grain branch (lines 329–363).  Returns
`some s2` when the grain moved (`moved = true` in the sketch) and `none`
when it could not move.  Priority: diagonal fall (row−1, col−1); when
blocked, the left / down-right spread.  When both spread options are free,
`choice = sideToggle ? 1 : -1` and the toggle flips (lines 345–348);
`choice = -1` slides left (col−1), `choice = 1` slides down-right (row−1)
(lines 355–361). -/
def grainTryMove (s : SimState) : Option SimState :=
  if 0 < s.grRow ∧ 0 < s.grCol ∧ yGet s.yStatic (s.grRow - 1) (s.grCol - 1) = false then
    some { s with grRow := s.grRow - 1, grCol := s.grCol - 1 }
  else if canLeftB s && canRightB s then
    (if s.sideToggle then some { s with sideToggle := !s.sideToggle, grRow := s.grRow - 1 }
     else some { s with sideToggle := !s.sideToggle, grCol := s.grCol - 1 })
  else if canLeftB s then some { s with grCol := s.grCol - 1 }
  else if canRightB s then some { s with grRow := s.grRow - 1 }
  else none

/-- The settle branch (lines 365–381): write the grain into `yStatic`
behind the defensive bounds check, clear it, advance `grainIndex`
(a `uint8_t`, hence mod 256), and finish at index 64. -/
def settleGrain (s : SimState) : SimState :=
  let s2 :=
    if boundsCheck s.grRow s.grCol then { s with yStatic := ySet s.yStatic s.grRow s.grCol }
    else s
  let s3 := { s2 with grainActive := false, grainIndex := (s2.grainIndex + 1) % 256 }
  if 64 ≤ s3.grainIndex then { s3 with finished := true } else s3

/-- The grain branch of `stepAnimation`: move if possible, otherwise settle. -/
def grainStep (s : SimState) : SimState :=
  match grainTryMove s with
  | some s2 => s2
  | none => settleGrain s

/-- The hole branch (lines 384–392): one diagonal step up, or deactivate at
the boundary. -/
def holeStep (s : SimState) : SimState :=
  if s.topHoleActive then
    if 0 < s.holeRow ∧ 0 < s.holeCol then
      { s with holeRow := s.holeRow - 1, holeCol := s.holeCol - 1 }
    else { s with topHoleActive := false }
  else s

/-- `stepAnimation` (lines 306–395), without the pure rendering / sound
side effects: early return when finished, otherwise the spawn branch or the
grain branch followed by the hole branch. -/
def stepAnimation (s : SimState) : SimState :=
  if s.finished then s
  else
    holeStep
      (if s.grainActive = false ∧ s.grainIndex < 64 then spawnStep s
       else if s.grainActive then grainStep s
       else s)

/-- The engine state `startNewCycle` resets to: `maskX` fully on, `yStatic`
clear, no grain, no hole, index 0, toggle cleared.  `startNewCycle` does not
touch the dormant coordinates `grRow`, `grCol`, `holeRow`, `holeCol`, so
they stay parameters. -/
def initSimAux (gr gc hr hc : Int) : SimState :=
  { finished := false
    maskX := List.replicate 8 255
    yStatic := List.replicate 8 (List.replicate 8 false)
    grainActive := false
    grRow := gr, grCol := gc
    sideToggle := false
    grainIndex := 0
    topHoleActive := false
    holeRow := hr, holeCol := hc }

/-- The boot-time engine state (globals initialised at (7,7)). -/
def initSim : SimState := initSimAux 7 7 7 7

/-- `n` animation steps. -/
def runSteps : Nat → SimState → SimState
  | 0, s => s
  | n + 1, s => runSteps n (stepAnimation s)

/-- The canonical engine trajectory: state after `n` steps from a fresh
cycle. -/
def traj (n : Nat) : SimState := runSteps n initSim

/-! ## Cell counting (for mass conservation) -/

/-- Number of set bits among the low 8 bits of one `maskX` row. -/
def bitCount8 (n : Nat) : Nat :=
  (List.range 8).foldl (fun a c => a + (if n.testBit c then 1 else 0)) 0

/-- Number of lit cells of `maskX` (sand left in the upper chamber). -/
def countX (s : SimState) : Nat :=
  s.maskX.foldl (fun a m => a + bitCount8 m) 0

/-- Number of settled cells of `yStatic` (sand in the lower chamber). -/
def countY (s : SimState) : Nat :=
  s.yStatic.foldl (fun a row => a + row.foldl (fun b v => b + (if v then 1 else 0)) 0) 0

/-! ## Orientation mapper (`rotate8`, `applyRotation`) -/

/-- `rotate8` (lines 90–97): rotate a coordinate `(x, y)` in `0..7` by a
multiple of 90°; any other (normalised) angle degrades to the identity. -/
def rotate8 (x y : Nat) (deg : Int) : Nat × Nat :=
  if ((deg % 360) + 360) % 360 = 0 then (x, y)
  else if ((deg % 360) + 360) % 360 = 90 then (7 - y, x)
  else if ((deg % 360) + 360) % 360 = 180 then (7 - x, 7 - y)
  else if ((deg % 360) + 360) % 360 = 270 then (y, 7 - x)
  else (x, y)

/-- The bit test `src[r] & (1 << c)` of line 104. -/
def srcBit (src : List Nat) (r c : Nat) : Bool :=
  decide (src.getD r 0 &&& (1 <<< c) ≠ 0)

/-- The body of the double loop of `applyRotation` (lines 102–111) for one
cell `(r, c)`: if the source bit is set, OR the rotated bit into `dst`. -/
def rotStep (deg : Int) (src dst : List Nat) (rc : Nat × Nat) : List Nat :=
  if srcBit src rc.1 rc.2 then
    dst.set (rotate8 rc.2 rc.1 deg).2
      (dst.getD (rotate8 rc.2 rc.1 deg).2 0 ||| (1 <<< (rotate8 rc.2 rc.1 deg).1))
  else dst

/-- The traversal order of the double loop: `r = 0..7` outer, `c = 0..7`
inner. -/
def allPairs : List (Nat × Nat) :=
  (List.range 8).flatMap fun r => (List.range 8).map fun c => (r, c)

/-- `applyRotation` (lines 100–112): clear `dst`, then copy every set source
bit through `rotate8`.  (Named `applyRot8` here.) -/
def applyRot8 (src : List Nat) (deg : Int) : List Nat :=
  allPairs.foldl (rotStep deg src) (List.replicate 8 0)

/-! ## Duration, gravity, cycle controller -/

/-- `getDurationFromPot` (lines 178–187): fixed breakpoints on the raw
`analogRead` value. -/
def getDurationFromPot (v : Int) : Nat :=
  if v < 170 then 30000
  else if v < 410 then 60000
  else if v < 600 then 120000
  else if v < 820 then 300000
  else if v < 900 then 600000
  else 1800000

/-- `getGravity` (lines 278–287): derive the coarse orientation from the
two tilt angles, keeping the previous value in the dead band. -/
def getGravity (x y lastG : Int) : Int :=
  if y < -25 then 90
  else if x > 25 then 0
  else if y > 25 then 270
  else if x < -25 then 180
  else lastG

/-- `FLIP_DEBOUNCE_MS` (line 45). -/
def FLIP_DEBOUNCE_MS : Nat := 800

/-- `unsigned long` subtraction `now - lastFlipMs` (32-bit wraparound). -/
def usub32 (a b : Nat) : Nat := (a + 2 ^ 32 - b % 2 ^ 32) % 2 ^ 32

/-- The controller globals around the engine: direction, flip debounce
state, retained gravity, and the timing derived by `startNewCycle`. -/
structure SysState where
  topToBottom : Bool
  lastFlipMs : Nat
  lastGravity : Int
  targetMs : Nat
  stepIntervalMs : Nat
  lastStepMs : Nat
  sim : SimState
deriving DecidableEq, Repr

/-- `startNewCycle` (lines 240–275): set the direction, reset the engine
(`initSimAux`, keeping the dormant coordinates), and derive the step
interval `targetMs / (64 * 10)` clamped to at least 1.  `potV` is the raw
duration-pot reading and `now` the `millis()` timestamp. -/
def startNewCycle (s : SysState) (dirTopToBottom : Bool) (potV : Int) (now : Nat) : SysState :=
  { s with
    topToBottom := dirTopToBottom
    sim := initSimAux s.sim.grRow s.sim.grCol s.sim.holeRow s.sim.holeCol
    targetMs := getDurationFromPot potV
    stepIntervalMs :=
      if getDurationFromPot potV / (64 * 10) = 0 then 1 else getDurationFromPot potV / (64 * 10)
    lastStepMs := now }

/-- `checkFlip` (lines 290–303): recompute the orientation; when it
disagrees with the current direction and the debounce interval has elapsed,
record the flip time and restart; always retain the derived gravity. -/
def checkFlip (s : SysState) (x y potV : Int) (now : Nat) : SysState :=
  { (if decide (getGravity x y s.lastGravity = 90) ≠ s.topToBottom ∧
        FLIP_DEBOUNCE_MS < usub32 now s.lastFlipMs then
       startNewCycle { s with lastFlipMs := now }
         (decide (getGravity x y s.lastGravity = 90)) potV now
     else s) with
    lastGravity := getGravity x y s.lastGravity }

/-- All 64 cells of the 8×8 grid, in raster order. -/
def allCells : List (Nat × Nat) :=
  (List.range 8).flatMap fun r => (List.range 8).map fun c => (r, c)

/-- `buildMaskY` (lines 190–206): the rendered lower-chamber mask, rebuilt
from scratch on every frame from `yStatic` plus the active grain, the
latter guarded by `boundsCheck`. -/
def buildMaskY (s : SimState) : List Nat :=
  let base := (List.range 8).map fun r =>
    (List.range 8).foldl
      (fun m c => if (s.yStatic.getD r []).getD c false then m ||| (1 <<< c) else m) 0
  if s.grainActive then
    if boundsCheck s.grRow s.grCol then
      base.set s.grRow.toNat (base.getD s.grRow.toNat 0 ||| (1 <<< s.grCol.toNat))
    else base
  else base

/-! ## Trajectory machinery -/

/-- Single-pass check of a Boolean state predicate along the first `N + 1`
states of a run. -/
def checkUpTo (p : SimState → Bool) : Nat → SimState → Bool
  | 0, s => p s
  | n + 1, s => p s && checkUpTo p n (stepAnimation s)

theorem checkUpTo_spec (p : SimState → Bool) :
    ∀ (N : Nat) (s : SimState), checkUpTo p N s = true →
      ∀ k, k ≤ N → p (runSteps k s) = true := by
  intro N
  induction N with
  | zero =>
    intro s h k hk
    have hk0 : k = 0 := Nat.le_zero.mp hk
    subst hk0
    simpa [runSteps, checkUpTo] using h
  | succ n ih =>
    intro s h k hk
    rw [checkUpTo, Bool.and_eq_true] at h
    cases k with
    | zero => simpa [runSteps] using h.1
    | succ k =>
      rw [runSteps]
      exact ih (stepAnimation s) h.2 k (Nat.succ_le_succ_iff.mp hk)

theorem runSteps_add (m n : Nat) (s : SimState) :
    runSteps (m + n) s = runSteps n (runSteps m s) := by
  induction m generalizing s with
  | zero => simp [runSteps]
  | succ m ih => rw [Nat.succ_add, runSteps, runSteps]; exact ih (stepAnimation s)

theorem runSteps_fix {s : SimState} (h : stepAnimation s = s) :
    ∀ n, runSteps n s = s := by
  intro n
  induction n with
  | zero => rfl
  | succ n ih => rw [runSteps, h]; exact ih

/-- A predicate checked along a run up to a fixpoint holds at every step of
the run. -/
theorem allSteps (p : SimState → Bool) (N : Nat) (s : SimState)
    (h1 : checkUpTo p N s = true) (h2 : stepAnimation (runSteps N s) = runSteps N s) :
    ∀ n, p (runSteps n s) = true := by
  intro n
  rcases le_or_lt n N with hle | hlt
  · exact checkUpTo_spec p N s h1 n hle
  · have he : runSteps n s = runSteps N s := by
      have hn : n = N + (n - N) := by omega
      rw [hn, runSteps_add]
      exact runSteps_fix h2 (n - N)
    rw [he]
    exact checkUpTo_spec p N s h1 N (Nat.le_refl N)

set_option maxRecDepth 10000 in
/-- The run is finished and stationary after 436 steps. -/
theorem fix436 : stepAnimation (runSteps 436 initSim) = runSteps 436 initSim := by decide

/-- The dormant coordinates left behind by a previous cycle do not survive
the first step of the new cycle (the spawn overwrites all four). -/
theorem step_initSimAux (a b c d : Int) :
    stepAnimation (initSimAux a b c d) = stepAnimation initSim := rfl

theorem runSteps_initSimAux (a b c d : Int) :
    ∀ n, 1 ≤ n → runSteps n (initSimAux a b c d) = runSteps n initSim := by
  intro n hn
  cases n with
  | zero => omega
  | succ n => rw [runSteps, runSteps, step_initSimAux]

/-! ## Claims -/

set_option maxRecDepth 10000 in
/-- C1: at every simulation step of every run, the number of lit cells of
`maskX` plus the number of settled cells of `yStatic` plus one for an
active grain equals 64 (mass conservation).  Runs differ only in the
dormant coordinates `startNewCycle` leaves behind, which are the four
`Int` parameters here. -/
theorem massConservation :
    ∀ (n : Nat) (gr gc hr hc : Int),
      countX (runSteps n (initSimAux gr gc hr hc)) +
        countY (runSteps n (initSimAux gr gc hr hc)) +
        (if (runSteps n (initSimAux gr gc hr hc)).grainActive then 1 else 0) = 64 := by
  have hall : ∀ k,
      (fun s => decide (countX s + countY s + (if s.grainActive then 1 else 0) = 64))
        (runSteps k initSim) = true :=
    allSteps (fun s => decide (countX s + countY s + (if s.grainActive then 1 else 0) = 64))
      436 initSim (by decide) fix436
  intro n gr gc hr hc
  cases n with
  | zero => rfl
  | succ n =>
    rw [runSteps_initSimAux gr gc hr hc (n + 1) (by omega)]
    exact of_decide_eq_true (hall (n + 1))

/-- An executable check for `Chain'` over consecutive elements. -/
theorem chain'_of_zipAll {α : Type} (R : α → α → Prop) [DecidableRel R] :
    ∀ l : List α, (l.zip l.tail).all (fun pq => decide (R pq.1 pq.2)) = true → l.Chain' R := by
  intro l
  induction l with
  | nil => intro _; exact List.chain'_nil
  | cons a t ih =>
    cases t with
    | nil => intro _; simp
    | cons b t2 =>
      intro h
      simp only [List.tail_cons, List.zip_cons_cons, List.all_cons, Bool.and_eq_true] at h
      exact List.chain'_cons.mpr ⟨of_decide_eq_true h.1, ih h.2⟩

set_option maxRecDepth 10000 in
/-- C2: the drain order lists each of the 64 cells exactly once
(a permutation of the full grid), the anti-diagonal index `row + col` is
non-decreasing along it, and inside each anti-diagonal the distance
`|row − col|` from the main diagonal is non-decreasing. -/
theorem drainOrderCorrect :
    buildOrderDiagonal.Perm allCells ∧
      buildOrderDiagonal.Chain' (fun p q =>
        p.1 + p.2 < q.1 + q.2 ∨
          (p.1 + p.2 = q.1 + q.2 ∧
            (Int.ofNat p.1 - Int.ofNat p.2).natAbs ≤ (Int.ofNat q.1 - Int.ofNat q.2).natAbs)) :=
  ⟨by decide, chain'_of_zipAll _ buildOrderDiagonal (by decide)⟩

set_option maxRecDepth 10000 in
/-- C3: whenever the grain is active — from the moment it spawns at the
neck (7,7) on — its cell is not set in `yStatic`, at every step of every
run. -/
theorem grainNeverOverlapsStatic :
    ∀ (n : Nat) (gr gc hr hc : Int),
      (runSteps n (initSimAux gr gc hr hc)).grainActive = true →
      yGet (runSteps n (initSimAux gr gc hr hc)).yStatic
        (runSteps n (initSimAux gr gc hr hc)).grRow
        (runSteps n (initSimAux gr gc hr hc)).grCol = false := by
  have hall : ∀ k,
      (fun s => !s.grainActive || !yGet s.yStatic s.grRow s.grCol)
        (runSteps k initSim) = true :=
    allSteps (fun s => !s.grainActive || !yGet s.yStatic s.grRow s.grCol)
      436 initSim (by decide) fix436
  intro n gr gc hr hc ha
  cases n with
  | zero => simp [runSteps, initSimAux] at ha
  | succ n =>
    rw [runSteps_initSimAux gr gc hr hc (n + 1) (by omega)] at ha ⊢
    have h2 := hall (n + 1)
    simpa [ha] using h2

/-- Witness for C3 at the first step of the boot run (with scrambled
dormant coordinates): the grain is active and its cell is clear. -/
theorem grainNeverOverlapsStatic_w :
    (runSteps 1 (initSimAux 0 3 5 1)).grainActive = true ∧
      yGet (runSteps 1 (initSimAux 0 3 5 1)).yStatic
        (runSteps 1 (initSimAux 0 3 5 1)).grRow
        (runSteps 1 (initSimAux 0 3 5 1)).grCol = false :=
  ⟨by decide, grainNeverOverlapsStatic 1 0 3 5 1 (by decide)⟩

set_option maxRecDepth 10000 in
/-- C5: in a cycle that runs without a flip restart, after the 64th grain
settles (step 436 of the canonical run) the drain index is 64, the cycle
is finished, `maskX` is fully clear; the finished flag was never set
before, and every later state is identical, so neither field ever changes
again. -/
theorem cycleFinishesAt64 :
    (traj 436).grainIndex = 64 ∧ (traj 436).finished = true ∧
      (traj 436).maskX = List.replicate 8 0 ∧
      (∀ n, n < 436 → (traj n).finished = false) ∧
      (∀ m, 436 ≤ m → traj m = traj 436) := by
  refine ⟨by decide, by decide, by decide, ?_, ?_⟩
  · intro n hn
    have h := checkUpTo_spec (fun s => !s.finished) 435 initSim (by decide) n (by omega)
    simpa using h
  · intro m hm
    have hm2 : m = 436 + (m - 436) := by omega
    simp only [traj]
    rw [hm2, runSteps_add]
    exact runSteps_fix fix436 (m - 436)

/-- Witness for C5: the run is not finished at the start, and step 437
changes nothing. -/
theorem cycleFinishesAt64_w : (traj 0).finished = false ∧ traj 437 = traj 436 :=
  ⟨cycleFinishesAt64.2.2.2.1 0 (by omega), cycleFinishesAt64.2.2.2.2 437 (by omega)⟩

/-- C8: the duration mapping takes a reading of 150 to a 30000 ms cycle
and a reading of 850 to a 600000 ms cycle. -/
theorem durationBreakpoints :
    getDurationFromPot 150 = 30000 ∧ getDurationFromPot 850 = 600000 :=
  ⟨by decide, by decide⟩

set_option maxRecDepth 10000 in
/-- C10: while the grain is active its coordinates stay inside `[0,7]`, at
every step of every run, so the defensive guard
`grRow >= 0 && grRow < 8 && grCol >= 0 && grCol < 8` (used by `buildMaskY`
and by the settle branch) always passes. -/
theorem grainStaysInBounds :
    ∀ (n : Nat) (gr gc hr hc : Int),
      (runSteps n (initSimAux gr gc hr hc)).grainActive = true →
      boundsCheck (runSteps n (initSimAux gr gc hr hc)).grRow
        (runSteps n (initSimAux gr gc hr hc)).grCol = true := by
  have hall : ∀ k,
      (fun s => !s.grainActive || boundsCheck s.grRow s.grCol)
        (runSteps k initSim) = true :=
    allSteps (fun s => !s.grainActive || boundsCheck s.grRow s.grCol)
      436 initSim (by decide) fix436
  intro n gr gc hr hc ha
  cases n with
  | zero => simp [runSteps, initSimAux] at ha
  | succ n =>
    rw [runSteps_initSimAux gr gc hr hc (n + 1) (by omega)] at ha ⊢
    have h2 := hall (n + 1)
    simpa [ha] using h2

/-- Witness for C10 at the first step of the boot run. -/
theorem grainStaysInBounds_w :
    (runSteps 1 (initSimAux 9 9 9 9)).grainActive = true ∧
      boundsCheck (runSteps 1 (initSimAux 9 9 9 9)).grRow
        (runSteps 1 (initSimAux 9 9 9 9)).grCol = true :=
  ⟨by decide, grainStaysInBounds 1 9 9 9 9 (by decide)⟩

/-! ## Hole marker (C4) and grain termination (C9) -/

theorem grainTryMove_hole (s t : SimState) (h : grainTryMove s = some t) :
    t.topHoleActive = s.topHoleActive ∧ t.holeRow = s.holeRow ∧ t.holeCol = s.holeCol := by
  unfold grainTryMove at h
  split_ifs at h <;> (injection h with h5; subst h5; exact ⟨rfl, rfl, rfl⟩)

theorem settleGrain_hole (s : SimState) :
    (settleGrain s).topHoleActive = s.topHoleActive ∧ (settleGrain s).holeRow = s.holeRow ∧
      (settleGrain s).holeCol = s.holeCol := by
  simp only [settleGrain]
  split_ifs <;> exact ⟨rfl, rfl, rfl⟩

theorem grainStep_hole (s : SimState) :
    (grainStep s).topHoleActive = s.topHoleActive ∧ (grainStep s).holeRow = s.holeRow ∧
      (grainStep s).holeCol = s.holeCol := by
  unfold grainStep
  cases h : grainTryMove s with
  | some t => exact grainTryMove_hole s t h
  | none => exact settleGrain_hole s

theorem holeAdvance (t : SimState) (hh : t.topHoleActive = true) :
    (0 < t.holeRow ∧ 0 < t.holeCol →
        (holeStep t).topHoleActive = true ∧ (holeStep t).holeRow = t.holeRow - 1 ∧
          (holeStep t).holeCol = t.holeCol - 1) ∧
      (¬(0 < t.holeRow ∧ 0 < t.holeCol) → (holeStep t).topHoleActive = false) := by
  constructor
  · intro hpos
    unfold holeStep
    rw [if_pos hh, if_pos hpos]
    exact ⟨hh, rfl, rfl⟩
  · intro hneg
    unfold holeStep
    rw [if_pos hh, if_neg hneg]

set_option maxRecDepth 10000 in
/-- C4, counterexample: on the boot run the hole marker is active at (1,1)
after 130 steps, yet one step later it has not advanced to (0,0): the grain
spawn of step 131 reset it to the neck (and the same tick moved it to
(6,6)).  This falsifies "advances one diagonal step per simulation tick
unconditionally until it reaches the boundary". -/
theorem holeMarkerUnconditional_cex :
    (traj 130).topHoleActive = true ∧ (traj 130).holeRow = 1 ∧ (traj 130).holeCol = 1 ∧
      (traj 131).topHoleActive = true ∧
      ¬((traj 131).holeRow = 0 ∧ (traj 131).holeCol = 0) := by decide

/-- C4, amended: on a tick that is not an early finished-return, an active
hole marker advances one diagonal step (row−1, col−1) and deactivates at
the boundary — provided the tick does not spawn a grain (a grain is active
or the drain order is exhausted); a grain-spawning tick instead resets the
marker to the neck, ending the tick at (6,6). -/
theorem holeMarkerStepRule (s : SimState) (hf : s.finished = false)
    (hh : s.topHoleActive = true) :
    ((s.grainActive = true ∨ 64 ≤ s.grainIndex) →
      (0 < s.holeRow ∧ 0 < s.holeCol →
          (stepAnimation s).topHoleActive = true ∧
          (stepAnimation s).holeRow = s.holeRow - 1 ∧
          (stepAnimation s).holeCol = s.holeCol - 1) ∧
        (¬(0 < s.holeRow ∧ 0 < s.holeCol) → (stepAnimation s).topHoleActive = false)) ∧
    (s.grainActive = false ∧ s.grainIndex < 64 →
      (stepAnimation s).topHoleActive = true ∧
      (stepAnimation s).holeRow = 6 ∧ (stepAnimation s).holeCol = 6) := by
  constructor
  · intro hng
    have hcond : ¬(s.grainActive = false ∧ s.grainIndex < 64) := by
      rcases hng with h | h
      · simp [h]
      · intro hc; omega
    have hstep : stepAnimation s = holeStep (if s.grainActive then grainStep s else s) := by
      unfold stepAnimation
      rw [if_neg (by simp [hf]), if_neg hcond]
    obtain ⟨e1, e2, e3⟩ :
        (if s.grainActive then grainStep s else s).topHoleActive = s.topHoleActive ∧
          (if s.grainActive then grainStep s else s).holeRow = s.holeRow ∧
          (if s.grainActive then grainStep s else s).holeCol = s.holeCol := by
      by_cases hga : s.grainActive = true
      · rw [if_pos hga]; exact grainStep_hole s
      · rw [if_neg hga]; exact ⟨rfl, rfl, rfl⟩
    rw [hstep]
    have hres := holeAdvance (if s.grainActive then grainStep s else s) (by rw [e1]; exact hh)
    rw [e2, e3] at hres
    exact hres
  · intro hc
    have hstep : stepAnimation s = holeStep (spawnStep s) := by
      unfold stepAnimation
      rw [if_neg (by simp [hf]), if_pos hc]
    rw [hstep]
    unfold holeStep
    rw [if_pos (show (spawnStep s).topHoleActive = true from rfl),
      if_pos (show (0 : Int) < (spawnStep s).holeRow ∧ (0 : Int) < (spawnStep s).holeCol from
        ⟨of_decide_eq_true rfl, of_decide_eq_true rfl⟩)]
    exact ⟨rfl, rfl, rfl⟩

set_option maxRecDepth 10000 in
/-- Witness for the amended C4 rule at the state after step 1 of the boot
run (grain active, hole at (6,6)). -/
theorem holeMarkerStepRule_w :
    (stepAnimation (traj 1)).topHoleActive = true ∧
      (stepAnimation (traj 1)).holeRow = (traj 1).holeRow - 1 ∧
      (stepAnimation (traj 1)).holeCol = (traj 1).holeCol - 1 :=
  ((holeMarkerStepRule (traj 1) (by decide) (by decide)).1 (Or.inl (by decide))).1 (by decide)

theorem holeStep_grain (s : SimState) :
    (holeStep s).grainActive = s.grainActive ∧ (holeStep s).finished = s.finished ∧
      (holeStep s).grRow = s.grRow ∧ (holeStep s).grCol = s.grCol := by
  unfold holeStep
  split_ifs <;> exact ⟨rfl, rfl, rfl, rfl⟩

theorem stepAnimation_active (s : SimState) (ha : s.grainActive = true) (hf : s.finished = false) :
    stepAnimation s = holeStep (grainStep s) := by
  unfold stepAnimation
  rw [if_neg (by simp [hf]), if_neg (by simp [ha]), if_pos ha]

theorem settleGrain_inactive (s : SimState) : (settleGrain s).grainActive = false := by
  simp only [settleGrain]
  split_ifs <;> rfl

/-- One step of an active, unfinished, in-bounds grain either settles it or
moves it to an in-bounds cell of strictly smaller `row + col`. -/
theorem grainProgress (s : SimState) (ha : s.grainActive = true) (hf : s.finished = false)
    (h1 : 0 ≤ s.grRow) (h2 : s.grRow < 8) (h3 : 0 ≤ s.grCol) (h4 : s.grCol < 8) :
    (stepAnimation s).grainActive = false ∨
      ((stepAnimation s).grainActive = true ∧ (stepAnimation s).finished = false ∧
        0 ≤ (stepAnimation s).grRow ∧ (stepAnimation s).grRow < 8 ∧
        0 ≤ (stepAnimation s).grCol ∧ (stepAnimation s).grCol < 8 ∧
        (stepAnimation s).grRow + (stepAnimation s).grCol < s.grRow + s.grCol) := by
  rw [stepAnimation_active s ha hf]
  obtain ⟨e1, e2, e3, e4⟩ := holeStep_grain (grainStep s)
  rw [e1, e2, e3, e4]
  unfold grainStep
  cases hm : grainTryMove s with
  | none => left; exact settleGrain_inactive s
  | some t =>
    right
    unfold grainTryMove at hm
    split_ifs at hm with hd hb hst hl hr
    · obtain ⟨hd1, hd2, -⟩ := hd
      injection hm with h5
      subst h5
      refine ⟨ha, hf, ?_, ?_, ?_, ?_, ?_⟩ <;> (simp only; omega)
    · simp only [canLeftB, canRightB, Bool.and_eq_true, decide_eq_true_eq] at hb
      injection hm with h5
      subst h5
      refine ⟨ha, hf, ?_, ?_, ?_, ?_, ?_⟩ <;> (simp only; omega)
    · simp only [canLeftB, canRightB, Bool.and_eq_true, decide_eq_true_eq] at hb
      injection hm with h5
      subst h5
      refine ⟨ha, hf, ?_, ?_, ?_, ?_, ?_⟩ <;> (simp only; omega)
    · simp only [canLeftB, Bool.and_eq_true, decide_eq_true_eq] at hl
      injection hm with h5
      subst h5
      refine ⟨ha, hf, ?_, ?_, ?_, ?_, ?_⟩ <;> (simp only; omega)
    · simp only [canRightB, Bool.and_eq_true, decide_eq_true_eq] at hr
      injection hm with h5
      subst h5
      refine ⟨ha, hf, ?_, ?_, ?_, ?_, ?_⟩ <;> (simp only; omega)

theorem grainTermAux :
    ∀ (n : Nat) (s : SimState), s.grainActive = true → s.finished = false →
      0 ≤ s.grRow → s.grRow < 8 → 0 ≤ s.grCol → s.grCol < 8 →
      (s.grRow + s.grCol).toNat ≤ n →
      ∃ k, k ≤ n + 1 ∧ (runSteps k s).grainActive = false := by
  intro n
  induction n with
  | zero =>
    intro s ha hf h1 h2 h3 h4 hsum
    rcases grainProgress s ha hf h1 h2 h3 h4 with h | h
    · exact ⟨1, Nat.le_refl 1, by simpa [runSteps] using h⟩
    · exfalso
      obtain ⟨-, -, g1, -, g2, -, g3⟩ := h
      omega
  | succ n ih =>
    intro s ha hf h1 h2 h3 h4 hsum
    rcases grainProgress s ha hf h1 h2 h3 h4 with h | h
    · exact ⟨1, by omega, by simpa [runSteps] using h⟩
    · obtain ⟨g0, gf, g1, g2, g3, g4, g5⟩ := h
      obtain ⟨k, hk1, hk2⟩ := ih (stepAnimation s) g0 gf g1 g2 g3 g4 (by omega)
      exact ⟨k + 1, by omega, by rw [runSteps]; exact hk2⟩

/-- C9: an active in-bounds grain always settles within 15 ticks (at most
14 movement steps, since every move strictly decreases `row + col`, which
is at most 14, plus the settling tick). -/
theorem grainAlwaysSettles (s : SimState) (ha : s.grainActive = true) (hf : s.finished = false)
    (h1 : 0 ≤ s.grRow) (h2 : s.grRow < 8) (h3 : 0 ≤ s.grCol) (h4 : s.grCol < 8) :
    ∃ k, k ≤ 15 ∧ (runSteps k s).grainActive = false :=
  grainTermAux 14 s ha hf h1 h2 h3 h4 (by omega)

/-- Witness for C9 at the freshly spawned grain of the boot run. -/
theorem grainAlwaysSettles_w :
    ∃ k, k ≤ 15 ∧ (runSteps k (runSteps 1 initSim)).grainActive = false :=
  grainAlwaysSettles (runSteps 1 initSim) (by decide) (by decide) (by decide) (by decide)
    (by decide) (by decide)

/-! ## Orientation round trip (C6) -/

theorem rotate8_lt (x y : Nat) (deg : Int) (hx : x < 8) (hy : y < 8) :
    (rotate8 x y deg).1 < 8 ∧ (rotate8 x y deg).2 < 8 := by
  unfold rotate8
  split_ifs <;> exact ⟨by omega, by omega⟩

theorem rot90_eq (x y : Nat) : rotate8 x y 90 = (7 - y, x) := rfl

/-- The bit test of the copy loop is the `testBit` of the row. -/
theorem srcBit_eq (src : List Nat) (r c : Nat) :
    srcBit src r c = (src.getD r 0).testBit c := by
  unfold srcBit
  rw [Nat.shiftLeft_eq, one_mul, Nat.and_two_pow]
  cases h : (src.getD r 0).testBit c <;> simp [h]

theorem rotStep_length (deg : Int) (src dst : List Nat) (rc : Nat × Nat) :
    (rotStep deg src dst rc).length = dst.length := by
  unfold rotStep
  split_ifs <;> simp

theorem foldRot_length (deg : Int) (src : List Nat) :
    ∀ (ps : List (Nat × Nat)) (dst : List Nat),
      (ps.foldl (rotStep deg src) dst).length = dst.length := by
  intro ps
  induction ps with
  | nil => intro dst; rfl
  | cons p ps ih => intro dst; rw [List.foldl_cons, ih, rotStep_length]

theorem applyRot8_length (src : List Nat) (deg : Int) : (applyRot8 src deg).length = 8 := by
  unfold applyRot8
  rw [foldRot_length]
  simp

theorem mem_allPairs (p : Nat × Nat) : p ∈ allPairs ↔ p.1 < 8 ∧ p.2 < 8 := by
  simp only [allPairs, List.mem_flatMap, List.mem_map, List.mem_range]
  constructor
  · rintro ⟨r, hr, c, hc, rfl⟩
    exact ⟨hr, hc⟩
  · rintro ⟨h1, h2⟩
    exact ⟨p.1, h1, p.2, h2, rfl⟩

theorem getD_set_self (l : List Nat) (j a : Nat) (hj : j < l.length) :
    (l.set j a).getD j 0 = a := by
  rw [List.getD_eq_getElem?_getD, List.getElem?_set_eq_of_lt a hj]
  rfl

theorem getD_set_other (l : List Nat) (i j a : Nat) (h : i ≠ j) :
    (l.set i a).getD j 0 = l.getD j 0 := by
  rw [List.getD_eq_getElem?_getD, List.getElem?_set_ne h, ← List.getD_eq_getElem?_getD]

/-- Characterisation of the copy loop: after folding the cells `ps` into
`dst`, bit `i` of row `j` is set iff it was set in `dst` or some processed
source cell is set and rotates onto `(i, j)`. -/
theorem foldRot_testBit (deg : Int) (src : List Nat) :
    ∀ (ps : List (Nat × Nat)) (dst : List Nat), dst.length = 8 →
      (∀ p ∈ ps, p.1 < 8 ∧ p.2 < 8) → ∀ i j : Nat, j < 8 →
      (((ps.foldl (rotStep deg src) dst).getD j 0).testBit i = true ↔
        ((dst.getD j 0).testBit i = true ∨
          ∃ p ∈ ps, srcBit src p.1 p.2 = true ∧ rotate8 p.2 p.1 deg = (i, j))) := by
  intro ps
  induction ps with
  | nil =>
    intro dst _ _ i j _
    simp
  | cons p ps ih =>
    intro dst hlen hmem i j hj
    have hp := hmem p (List.mem_cons_self p ps)
    obtain ⟨hrx, hry⟩ := rotate8_lt p.2 p.1 deg hp.2 hp.1
    have hstep : ((rotStep deg src dst p).getD j 0).testBit i = true ↔
        ((dst.getD j 0).testBit i = true ∨
          (srcBit src p.1 p.2 = true ∧ rotate8 p.2 p.1 deg = (i, j))) := by
      unfold rotStep
      by_cases hsb : srcBit src p.1 p.2 = true
      · rw [if_pos hsb]
        by_cases hje : (rotate8 p.2 p.1 deg).2 = j
        · rw [← hje]
          rw [getD_set_self dst _ _ (by rw [hlen]; exact hry)]
          rw [Nat.testBit_lor, Nat.shiftLeft_eq, one_mul]
          by_cases hix : (rotate8 p.2 p.1 deg).1 = i
          · simp [← hix, Nat.testBit_two_pow_self, hsb, Prod.ext_iff]
          · simp [Nat.testBit_two_pow_of_ne hix, hsb, Prod.ext_iff, hix]
        · rw [getD_set_other dst _ _ _ hje]
          simp [Prod.ext_iff, hje]
      · rw [if_neg hsb]
        have hsb2 : srcBit src p.1 p.2 = false := by simpa using hsb
        simp [hsb2]
    rw [List.foldl_cons,
      ih (rotStep deg src dst p) (by rw [rotStep_length]; exact hlen)
        (fun q hq => hmem q (List.mem_cons_of_mem p hq)) i j hj,
      hstep, List.exists_mem_cons_iff]
    tauto

theorem applyRot8_testBit (src : List Nat) (deg : Int) (i j : Nat) (hj : j < 8) :
    (((applyRot8 src deg).getD j 0).testBit i = true ↔
      ∃ p ∈ allPairs, srcBit src p.1 p.2 = true ∧ rotate8 p.2 p.1 deg = (i, j)) := by
  unfold applyRot8
  rw [foldRot_testBit deg src allPairs (List.replicate 8 0) (by simp)
      (fun p hp => (mem_allPairs p).mp hp) i j hj]
  have hz : (List.replicate 8 0 : List Nat).getD j 0 = 0 := by
    rw [List.getD_eq_getElem _ _ (by simpa using hj), List.getElem_replicate]
  rw [hz]
  simp [Nat.zero_testBit]

/-- One 90° application in coordinates: bit `i` of output row `j` is bit
`j` of input row `7 − i`. -/
theorem applyRot8_90 (src : List Nat) (i j : Nat) (hi : i < 8) (hj : j < 8) :
    ((applyRot8 src 90).getD j 0).testBit i = (src.getD (7 - i) 0).testBit j := by
  rw [Bool.eq_iff_iff, applyRot8_testBit src 90 i j hj]
  constructor
  · rintro ⟨p, hp, hsb, hrot⟩
    rw [rot90_eq, Prod.mk.injEq] at hrot
    obtain ⟨h1, h2⟩ := hrot
    have hp8 := (mem_allPairs p).mp hp
    have hp1 : p.1 = 7 - i := by omega
    rw [srcBit_eq, hp1, h2] at hsb
    exact hsb
  · intro hs
    refine ⟨(7 - i, j), (mem_allPairs _).mpr ⟨by omega, hj⟩, ?_, ?_⟩
    · rw [srcBit_eq]
      exact hs
    · rw [rot90_eq, Prod.mk.injEq]
      exact ⟨by omega, rfl⟩

theorem foldRot_lt (deg : Int) (src : List Nat) :
    ∀ (ps : List (Nat × Nat)) (dst : List Nat),
      (∀ p ∈ ps, p.1 < 8 ∧ p.2 < 8) → (∀ j, dst.getD j 0 < 2 ^ 8) →
      ∀ j, (ps.foldl (rotStep deg src) dst).getD j 0 < 2 ^ 8 := by
  intro ps
  induction ps with
  | nil => intro dst _ hd j; exact hd j
  | cons p ps ih =>
    intro dst hmem hd j
    rw [List.foldl_cons]
    refine ih (rotStep deg src dst p) (fun q hq => hmem q (List.mem_cons_of_mem p hq)) ?_ j
    intro j2
    unfold rotStep
    split_ifs with hsb
    · obtain ⟨hrx, hry⟩ :=
        rotate8_lt p.2 p.1 deg (hmem p (List.mem_cons_self p ps)).2
          (hmem p (List.mem_cons_self p ps)).1
      by_cases hje : (rotate8 p.2 p.1 deg).2 = j2
      · by_cases hlt : j2 < dst.length
        · rw [← hje] at hlt ⊢
          rw [getD_set_self dst _ _ hlt]
          have h2 : (1 <<< (rotate8 p.2 p.1 deg).1) < 2 ^ 8 := by
            rw [Nat.shiftLeft_eq, one_mul]
            exact Nat.pow_lt_pow_right (by norm_num) hrx
          exact Nat.or_lt_two_pow (hd _) h2
        · rw [List.getD_eq_default _ _ (by rw [List.length_set]; omega)]
          norm_num
      · rw [getD_set_other dst _ _ _ hje]
        exact hd j2
    · exact hd j2

theorem applyRot8_lt (src : List Nat) (deg : Int) (j : Nat) :
    (applyRot8 src deg).getD j 0 < 2 ^ 8 := by
  unfold applyRot8
  refine foldRot_lt deg src allPairs (List.replicate 8 0)
    (fun p hp => (mem_allPairs p).mp hp) ?_ j
  intro j2
  rcases Nat.lt_or_ge j2 8 with h | h
  · rw [List.getD_eq_getElem _ _ (by simpa using h), List.getElem_replicate]
    norm_num
  · rw [List.getD_eq_default _ _ (by simpa using h)]
    norm_num

/-- C6: rotating any 8×8 bitmap (eight rows of 8 bits) by 90° four times
in succession returns the original bitmap. -/
theorem rotateFourTimesId (src : List Nat) (hlen : src.length = 8)
    (hrows : ∀ x ∈ src, x < 256) :
    applyRot8 (applyRot8 (applyRot8 (applyRot8 src 90) 90) 90) 90 = src := by
  have hsrc_lt : ∀ j, src.getD j 0 < 2 ^ 8 := by
    intro j
    rcases Nat.lt_or_ge j src.length with h | h
    · rw [List.getD_eq_getElem _ _ h]
      have h2 := hrows (src[j]) (List.getElem_mem h)
      omega
    · rw [List.getD_eq_default _ _ h]
      norm_num
  apply List.ext_getElem
  · rw [applyRot8_length, hlen]
  · intro j hj1 hj2
    have hj : j < 8 := by rw [applyRot8_length] at hj1; exact hj1
    rw [← List.getD_eq_getElem _ 0 hj1, ← List.getD_eq_getElem _ 0 hj2]
    apply Nat.eq_of_testBit_eq
    intro i
    by_cases hi : i < 8
    · have e1 : 7 - (7 - i) = i := Nat.sub_sub_self (by omega)
      have e2 : 7 - (7 - j) = j := Nat.sub_sub_self (by omega)
      rw [applyRot8_90 _ i j hi hj,
        applyRot8_90 _ j (7 - i) hj (by omega),
        applyRot8_90 _ (7 - i) (7 - j) (by omega) (by omega), e1,
        applyRot8_90 _ (7 - j) i (by omega) hi, e2]
    · have h8i : 2 ^ 8 ≤ 2 ^ i := Nat.pow_le_pow_right (by norm_num) (by omega)
      rw [Nat.testBit_lt_two_pow (lt_of_lt_of_le (applyRot8_lt _ 90 j) h8i),
        Nat.testBit_lt_two_pow (lt_of_lt_of_le (hsrc_lt j) h8i)]

/-- Witness for C6 on a concrete bitmap. -/
theorem rotateFourTimesId_w :
    applyRot8 (applyRot8 (applyRot8 (applyRot8 [1, 2, 4, 8, 16, 37, 130, 255] 90) 90) 90) 90 =
      [1, 2, 4, 8, 16, 37, 130, 255] :=
  rotateFourTimesId [1, 2, 4, 8, 16, 37, 130, 255] (by decide) (by decide)

/-! ## Flip debounce (C7) -/

theorem usub32_sub (T d : Nat) (h1 : d ≤ T) (h2 : T < 2 ^ 32) :
    usub32 T (T - d) = d := by
  unfold usub32
  have hm : (T - d) % 2 ^ 32 = T - d := Nat.mod_eq_of_lt (by omega)
  rw [hm]
  have he : T + 2 ^ 32 - (T - d) = 2 ^ 32 + d := by omega
  rw [he, Nat.add_mod_left]
  exact Nat.mod_eq_of_lt (by omega)

/-- C7: when the derived direction differs from the cycle direction at time
`T`, a previous recognized flip at `T − 500` (inside the 800 ms debounce)
leaves everything except the retained gravity reading unchanged — no
restart; a previous flip at `T − 900` (outside the debounce) is accepted:
the flip time becomes `T` and `startNewCycle` runs in the new direction,
resetting the engine and re-deriving the timing. -/
theorem flipDebounce (s : SysState) (x y potV : Int) (T : Nat)
    (hT1 : 900 ≤ T) (hT2 : T < 2 ^ 32)
    (hdir : decide (getGravity x y s.lastGravity = 90) ≠ s.topToBottom) :
    (s.lastFlipMs = T - 500 →
      checkFlip s x y potV T = { s with lastGravity := getGravity x y s.lastGravity }) ∧
    (s.lastFlipMs = T - 900 →
      (checkFlip s x y potV T).topToBottom = decide (getGravity x y s.lastGravity = 90) ∧
      (checkFlip s x y potV T).lastFlipMs = T ∧
      (checkFlip s x y potV T).sim =
        initSimAux s.sim.grRow s.sim.grCol s.sim.holeRow s.sim.holeCol ∧
      (checkFlip s x y potV T).targetMs = getDurationFromPot potV ∧
      (checkFlip s x y potV T).lastStepMs = T) := by
  constructor
  · intro h5
    unfold checkFlip
    rw [if_neg]
    rw [h5, usub32_sub T 500 (by omega) hT2]
    exact fun hc => absurd hc.2 (by decide)
  · intro h5
    unfold checkFlip
    rw [if_pos ⟨hdir, by rw [h5, usub32_sub T 900 (by omega) hT2]; decide⟩]
    exact ⟨rfl, rfl, rfl, rfl, rfl⟩

/-- Witness for C7: at `T = 1000` with the tilt reading giving direction
`true` against a cycle running `false`, a flip at 500 is ignored and a flip
at 100 restarts. -/
theorem flipDebounce_w :
    (checkFlip ⟨false, 500, 0, 0, 0, 0, initSim⟩ 0 (-30) 42 1000 =
      { (⟨false, 500, 0, 0, 0, 0, initSim⟩ : SysState) with
          lastGravity := getGravity 0 (-30) 0 }) ∧
    (checkFlip ⟨false, 100, 0, 0, 0, 0, initSim⟩ 0 (-30) 42 1000).topToBottom =
        decide (getGravity 0 (-30) 0 = 90) ∧
      (checkFlip ⟨false, 100, 0, 0, 0, 0, initSim⟩ 0 (-30) 42 1000).lastFlipMs = 1000 :=
  ⟨(flipDebounce ⟨false, 500, 0, 0, 0, 0, initSim⟩ 0 (-30) 42 1000 (by norm_num)
      (by norm_num) (by decide)).1 rfl,
    ((flipDebounce ⟨false, 100, 0, 0, 0, 0, initSim⟩ 0 (-30) 42 1000 (by norm_num)
      (by norm_num) (by decide)).2 rfl).1,
    ((flipDebounce ⟨false, 100, 0, 0, 0, 0, initSim⟩ 0 (-30) 42 1000 (by norm_num)
      (by norm_num) (by decide)).2 rfl).2.1⟩
